import Mathlib

/-!
Verification of the `bilibili_parse` link-resolution pipeline.

A shallow embedding, over `List Char`, of the link-resolution pipeline of
`main.py` (plugin `bilibili_parse`): the three-tier reference extractor
(`_extract_bili_url_from_event`), the JSON-escape remover
(`_unescape_card_url`), the pure-video-message detector
(`_is_pure_video_event`), the short-link expander (`_expand_url`), the
metadata fetch (`get_video_info`) and the message handler (`bilibili_parse`).

Python regular-expression searches are embedded as hand-compiled matchers
that reproduce `re.search` semantics (leftmost match; alternatives and
optional groups tried in backtracking order) for the three concrete patterns
of the source.  Two conscious restrictions of the embedding: the character
class `\d` is modelled as ASCII `Char.isDigit`, and `str.lower` as the ASCII
`Char.toLower`; the inputs of interest contain no exotic Unicode digits or
cased letters, so the modelled behaviour coincides with CPython on them.
-/

/-- Characters of a string literal, the carrier type of the embedding. -/
def toL (s : String) : List Char := s.data

/-- Match a literal at the head of the input and return the remainder
(`none` when the literal is not a prefix). -/
def stripLit : List Char → List Char → Option (List Char)
  | [], s => some s
  | _ :: _, [] => none
  | c :: cs, d :: ds => if c = d then stripLit cs ds else none

/-- Take exactly `n` characters satisfying `p` (regex `{n}` counter). -/
def takeN : Nat → (Char → Bool) → List Char → Option (List Char × List Char)
  | 0, _, s => some ([], s)
  | _ + 1, _, [] => none
  | n + 1, p, c :: s => if p c then (takeN n p s).map (fun a => (c :: a.1, a.2)) else none

/-- Python's `in` on strings: does `pat` occur as a contiguous substring of `hay`? -/
def listContains (hay pat : List Char) : Bool :=
  match hay with
  | [] => pat.isEmpty
  | c :: t => pat.isPrefixOf (c :: t) || listContains t pat

/-- `re.search`: try the position matcher `m` at every position, left to right,
and return the first success. -/
def searchWith (m : List Char → Option (List Char)) : List Char → Option (List Char)
  | [] => m []
  | c :: t =>
    match m (c :: t) with
    | some r => some r
    | none => searchWith m t

/-- `str.lower`, restricted to ASCII (identity beyond ASCII, like CPython on
the identifiers and hints that occur here). -/
def toLowerL (s : List Char) : List Char := s.map Char.toLower

/-- `" ".join(parts)`. -/
def joinSpace (parts : List (List Char)) : List Char := List.intercalate [' '] parts

/-- Python `str.replace(old, new)` specialised to a one-character `old`:
scan left to right, replacing every occurrence. -/
def replace1 (x : Char) (new : List Char) : List Char → List Char
  | [] => []
  | c :: rest => if c = x then new ++ replace1 x new rest else c :: replace1 x new rest

/-- Python `str.replace(old, new)` specialised to a two-character `old`:
scan left to right, replacing non-overlapping occurrences. -/
def replace2 (x y : Char) (new : List Char) : List Char → List Char
  | [] => []
  | [c] => [c]
  | c :: d :: rest =>
    if c = x ∧ d = y then new ++ replace2 x y new rest
    else c :: replace2 x y new (d :: rest)

/-- Character class `[A-Za-z0-9_-]` of the short-link token. -/
def isTokenC (c : Char) : Bool := c.isAlphanum || c == '_' || c == '-'

/-! The three regex patterns of `main.py`, hand-compiled.

`BILI_LINK_PATTERN` (line 19):
`(https?://)?(?:www\.)?(?:bilibili\.com/video/(BV[0-9A-Za-z]{10}|av\d+)(?:/|\?|$)|b23\.tv/[A-Za-z0-9_-]+|bili2233\.cn/[A-Za-z0-9_-]+)`
-/

/-- Group alternative `BV[0-9A-Za-z]{10}`: literal `BV`, then exactly ten
alphanumerics.  Returns the matched identifier and the remainder. -/
def matchIdBV (r : List Char) : Option (List Char × List Char) :=
  match r with
  | c1 :: c2 :: rest =>
    if c1 = 'B' ∧ c2 = 'V' then
      match takeN 10 Char.isAlphanum rest with
      | some a => some (c1 :: c2 :: a.1, a.2)
      | none => none
    else none
  | _ => none

/-- Group alternative `av\d+` (with `minD = 1`) or `av\d{5,}` (with
`minD = 5`): literal `av` then a maximal nonempty digit run of length at
least `minD`.  The digit run is greedy; backtracking to a shorter run can
never help the callers here, because the character after a shortened run is
again a digit, which none of the follow-up alternatives accept. -/
def matchIdAvMin (minD : Nat) (r : List Char) : Option (List Char × List Char) :=
  match r with
  | c1 :: c2 :: rest =>
    if c1 = 'a' ∧ c2 = 'v' then
      let ds := rest.takeWhile Char.isDigit
      if !ds.isEmpty && decide (minD ≤ ds.length) then
        some (c1 :: c2 :: ds, rest.dropWhile Char.isDigit)
      else none
    else none
  | _ => none

/-- The identifier group `(BV[0-9A-Za-z]{10}|av\d+)` / `(BV…|av\d{5,})`:
alternatives in order.  If the `BV` alternative matched, the `av` one cannot
(first characters differ), so no backtracking between them is needed. -/
def matchVidGroup (minD : Nat) (r : List Char) : Option (List Char × List Char) :=
  match matchIdBV r with
  | some p => some p
  | none => matchIdAvMin minD r

/-- The follower `(?:/|\?|$)` of the video-page alternative.  `$` matches at
the end of the string or before a single trailing newline (CPython, no
MULTILINE).  Returns the characters the group consumed (part of group 0). -/
def matchTrail (r : List Char) : Option (List Char) :=
  match r with
  | [] => some []
  | c :: rest =>
    if c = '/' then some ['/']
    else if c = '?' then some ['?']
    else if c = '\n' ∧ rest = [] then some []
    else none

/-- Alternative `bilibili\.com/video/(BV[0-9A-Za-z]{10}|av\d+)(?:/|\?|$)`,
returning the text it matched. -/
def matchBiliVideoAlt (r : List Char) : Option (List Char) :=
  match stripLit (toL "bilibili.com/video/") r with
  | none => none
  | some r1 =>
    match matchVidGroup 1 r1 with
    | none => none
    | some p =>
      match matchTrail p.2 with
      | none => none
      | some tr => some (toL "bilibili.com/video/" ++ p.1 ++ tr)

/-- Alternatives `b23\.tv/[A-Za-z0-9_-]+` and `bili2233\.cn/[A-Za-z0-9_-]+`:
a domain literal then a maximal nonempty token run. -/
def matchShortAlt (domLit : List Char) (r : List Char) : Option (List Char) :=
  match stripLit domLit r with
  | none => none
  | some r1 =>
    let tok := r1.takeWhile isTokenC
    if tok.isEmpty then none else some (domLit ++ tok)

/-- The host alternation of `BILI_LINK_PATTERN`, in source order. -/
def matchBiliAfterHost (r : List Char) : Option (List Char) :=
  match matchBiliVideoAlt r with
  | some m => some m
  | none =>
    match matchShortAlt (toL "b23.tv/") r with
    | some m => some m
    | none => matchShortAlt (toL "bili2233.cn/") r

/-- `(?:www\.)?` then the host alternation, with backtracking: if `www.` is
present but the rest fails, the optional group is retried as absent. -/
def matchBiliAfterScheme (r : List Char) : Option (List Char) :=
  match stripLit (toL "www.") r with
  | some r1 =>
    match matchBiliAfterHost r1 with
    | some m => some (toL "www." ++ m)
    | none => matchBiliAfterHost r
  | none => matchBiliAfterHost r

/-- `BILI_LINK_PATTERN` anchored at one position.  The optional scheme group
tries `https://`, then `http://`, then absent.  When a scheme literal is
present but the remainder fails, the regex backtracks to the scheme-absent
branch; on text beginning with `h` the host alternation (which needs `w` or
`b`) necessarily fails, so returning `none` is faithful. -/
def matchBiliAt (s : List Char) : Option (List Char) :=
  match stripLit (toL "https://") s with
  | some r => (matchBiliAfterScheme r).map (fun m => toL "https://" ++ m)
  | none =>
    match stripLit (toL "http://") s with
    | some r => (matchBiliAfterScheme r).map (fun m => toL "http://" ++ m)
    | none => matchBiliAfterScheme s

/-!
`CARD_ESCAPED_LINK_PATTERN` (lines 23-28).  The raw pattern source is
`https:\\\\/\\\\/(?:www\\.)?(?:bilibili\.com\\\\/video\\\\/(BV[0-9A-Za-z]{10}|av\\d+)(?:\\\\/|\\?|$)|b23\.tv\\\\/[A-Za-z0-9_-]+|bili2233\.cn\\\\/[A-Za-z0-9_-]+)`.
Read as a regex: `\\\\/` is two literal backslashes then a slash; `www\\.`
is `www`, a literal backslash, then `.` = any character but newline;
`av\\d+` is `av`, a literal backslash, then one or more literal `d`; and the
follower `(?:\\\\/|\\?|$)` has as second alternative an *optional* literal
backslash, which matches the empty string, so the follower always succeeds.
-/

/-- Card-pattern alternative `av\\d+`: `av`, a literal backslash, then one
or more literal `d` characters (greedy; nothing after it constrains the run). -/
def matchCardAv (r : List Char) : Option (List Char × List Char) :=
  match r with
  | c1 :: c2 :: c3 :: rest =>
    if c1 = 'a' ∧ c2 = 'v' ∧ c3 = '\\' then
      let ds := rest.takeWhile (fun c => c == 'd')
      if ds.isEmpty then none
      else some (c1 :: c2 :: c3 :: ds, rest.dropWhile (fun c => c == 'd'))
    else none
  | _ => none

/-- Card-pattern follower `(?:\\\\/|\\?|$)`: first try two backslashes and a
slash; otherwise the optional single backslash, which always succeeds
(consuming one backslash if present, else nothing). -/
def matchCardTrail (r : List Char) : List Char :=
  match r with
  | '\\' :: '\\' :: '/' :: _ => ['\\', '\\', '/']
  | '\\' :: _ => ['\\']
  | _ => []

/-- Card video alternative
`bilibili\.com\\\\/video\\\\/(BV[0-9A-Za-z]{10}|av\\d+)(?:\\\\/|\\?|$)`. -/
def matchCardVideoAlt (r : List Char) : Option (List Char) :=
  match stripLit (toL "bilibili.com\\\\/video\\\\/") r with
  | none => none
  | some r1 =>
    match (match matchIdBV r1 with
           | some p => some p
           | none => matchCardAv r1) with
    | none => none
    | some p => some (toL "bilibili.com\\\\/video\\\\/" ++ p.1 ++ matchCardTrail p.2)

/-- Card host alternation, in source order. -/
def matchCardHost (r : List Char) : Option (List Char) :=
  match matchCardVideoAlt r with
  | some m => some m
  | none =>
    match matchShortAlt (toL "b23.tv\\\\/") r with
    | some m => some m
    | none => matchShortAlt (toL "bili2233.cn\\\\/") r

/-- `(?:www\\.)?` of the card pattern: `www`, a literal backslash, then any
character except newline; retried as absent if the rest fails. -/
def matchCardAfterScheme (r : List Char) : Option (List Char) :=
  match r with
  | c1 :: c2 :: c3 :: c4 :: c5 :: rest =>
    if c1 = 'w' ∧ c2 = 'w' ∧ c3 = 'w' ∧ c4 = '\\' ∧ c5 ≠ '\n' then
      match matchCardHost rest with
      | some m => some (c1 :: c2 :: c3 :: c4 :: c5 :: m)
      | none => matchCardHost (c1 :: c2 :: c3 :: c4 :: c5 :: rest)
    else matchCardHost (c1 :: c2 :: c3 :: c4 :: c5 :: rest)
  | _ => matchCardHost r

/-- `CARD_ESCAPED_LINK_PATTERN` anchored at one position: the scheme literal
`https:` followed by twice (two backslashes and a slash), then the rest. -/
def matchCardAt (s : List Char) : Option (List Char) :=
  match stripLit (toL "https:\\\\/\\\\/") s with
  | none => none
  | some r => (matchCardAfterScheme r).map (fun m => toL "https:\\\\/\\\\/" ++ m)

/-- The handler's strict canonicalization pattern
`/video/(BV[0-9A-Za-z]{10}|av\d{5,})` (line 341), returning group 1. -/
def matchVideoPathAt (s : List Char) : Option (List Char) :=
  match stripLit (toL "/video/") s with
  | none => none
  | some r => (matchVidGroup 5 r).map (fun p => p.1)

/-- `BV_OR_AV_ID_PATTERN = (BV[0-9A-Za-z]{10}|av\d{5,})` (line 31), anchored
at one position; group 0 is the identifier itself. -/
def matchIdAt (s : List Char) : Option (List Char) :=
  (matchVidGroup 5 s).map (fun p => p.1)

/-! String transforms and the event model. -/

/-- `_unescape_card_url` (lines 89-95):
`s.replace("\\\\", "\\").replace("\\/", "/")` — first turn every
double backslash into a single one, then every backslash-slash into a slash. -/
def unescapeCardUrl (s : List Char) : List Char :=
  replace2 '\\' '/' ['/'] (replace2 '\\' '\\' ['\\'] s)

/-- Modelled from the spec (§8, round-trip property): the JSON-style escape
the specification composes with `_unescape_card_url` — replace each
backslash by two backslashes, then each slash by backslash-slash.  Not code
of `main.py`; it is the inverse direction the spec's round-trip claim needs. -/
def escapeJsonUrl (s : List Char) : List Char :=
  replace1 '/' ['\\', '/'] (replace1 '\\' ['\\', '\\'] s)

/-- The stringified card/message object: the fields of `event.message_obj`
that `main.py` reads (`message_str`, `str(msg_obj)`, `type`). -/
structure MsgObj where
  message_str : Option (List Char)
  strRepr : List Char
  type : Option (List Char)
deriving DecidableEq, Repr

/-- The incoming event: the fields of `AstrMessageEvent` that `main.py`
reads (`message_str`, `raw_message`, `message_obj`). -/
structure Event where
  message_str : Option (List Char)
  raw_message : Option (List Char)
  message_obj : Option MsgObj
deriving DecidableEq, Repr

/-- The candidate texts of `_extract_bili_url_from_event` (lines 134-150):
`event.message_str` (when truthy), `msg_obj.message_str` (when truthy), and
`str(msg_obj)` (unconditionally, when a message object is present). -/
def candidatesText (ev : Event) : List (List Char) :=
  (match ev.message_str with
   | some v => if v = [] then [] else [v]
   | none => []) ++
  (match ev.message_obj with
   | some mo =>
     (match mo.message_str with
      | some v => if v = [] then [] else [v]
      | none => []) ++ [mo.strRepr]
   | none => [])

/-- The fallback gate of lines 174-175: the lowercased joined candidates
must contain one of `bilibili`, `b23.tv`, `bili2233.cn`, `哔哩`, `b站`,
or a space followed by `bv`. -/
def fallbackHints (s : List Char) : Bool :=
  listContains s (toL "bilibili") || listContains s (toL "b23.tv") ||
  listContains s (toL "bili2233.cn") || listContains s (toL "哔哩") ||
  listContains s (toL "b站") || listContains s (toL " bv")

/-- `_extract_bili_url_from_event` (lines 129-182): tier 1 searches every
candidate for `BILI_LINK_PATTERN` and scheme-normalizes the match; tier 2
searches for `CARD_ESCAPED_LINK_PATTERN`, unescapes and scheme-normalizes;
tier 3, gated on the site hints, searches for a bare identifier and
synthesizes `https://www.bilibili.com/video/<id>`. -/
def extractBiliUrl (ev : Event) : Option (List Char) :=
  let cands := candidatesText ev
  match cands.findSome? (fun t => searchWith matchBiliAt t) with
  | some url =>
    some (if (toL "http").isPrefixOf url then url else toL "https://" ++ url)
  | none =>
    match cands.findSome? (fun t => searchWith matchCardAt t) with
    | some raw =>
      let url := unescapeCardUrl raw
      let url2 := if (toL "//").isPrefixOf url then toL "https:" ++ url else url
      some (if (toL "http").isPrefixOf url2 then url2 else toL "https://" ++ url2)
    | none =>
      if fallbackHints (toLowerL (joinSpace cands)) then
        match cands.findSome? (fun t => searchWith matchIdAt t) with
        | some tok => some (toL "https://www.bilibili.com/video/" ++ tok)
        | none => none
      else none

/-- The parts list of `_is_pure_video_event` (lines 106-113): truthy
`message_str` and `raw_message`, then `str(msg_obj)` unconditionally. -/
def pureParts (ev : Event) : List (List Char) :=
  (match ev.message_str with
   | some v => if v = [] then [] else [v]
   | none => []) ++
  (match ev.raw_message with
   | some v => if v = [] then [] else [v]
   | none => []) ++
  (match ev.message_obj with
   | some mo => [mo.strRepr]
   | none => [])

/-- The hint set of `_is_pure_video_event` (lines 118 and 122). -/
def pureHints (s : List Char) : Bool :=
  listContains s (toL "bilibili.com") || listContains s (toL "b23.tv") ||
  listContains s (toL "bili2233.cn") || listContains s (toL " bv")

/-- The textual video markers of line 124. -/
def videoMarkers (s : List Char) : Bool :=
  listContains s (toL "[cq:video") || listContains s (toL "type=\"video\"") ||
  listContains s (toL "type=video") || listContains s (toL "\"video\"")

/-- `_is_pure_video_event` (lines 98-126): if the message object's `type`
field is the string `video` (case-insensitively) and no hint occurs in the
lowercased joined parts, the message is pure video; otherwise hints force
`False`, and failing that the textual video markers decide. -/
def isPureVideoEvent (ev : Event) : Bool :=
  let earlyVideo :=
    match ev.message_obj with
    | some mo =>
      match mo.type with
      | some t =>
        toLowerL t == toL "video" && !pureHints (toLowerL (joinSpace (pureParts ev)))
      | none => false
    | none => false
  if earlyVideo then true
  else
    let s := toLowerL (joinSpace (pureParts ev))
    if pureHints s then false
    else videoMarkers s

/-! HTTP-dependent parts, with the network as an explicit parameter. -/

/-- `_expand_url` (lines 61-71): prepend `https://` when the URL has no
`http` prefix, then follow redirects.  The network is the parameter
`request`; `none` models any raised exception (timeout, DNS failure, …), in
which case the `except` branch returns the URL variable as it stands — i.e.
after the scheme was possibly prepended. -/
def expandUrl (request : List Char → Option (List Char)) (url : List Char) : List Char :=
  let u := if (toL "http").isPrefixOf url then url else toL "https://" ++ url
  match request u with
  | some final => final
  | none => u

/-- One element of the metadata response's `data` array, with the fields
`get_video_info` reads. -/
structure ApiItem where
  video_url : Option (List Char)
  video_size : Option Int
  accept_format : Option (List Char)
  comment : Option (List Char)
deriving DecidableEq, Repr

/-- The metadata API's JSON response, with the fields `get_video_info`
reads; absent keys are `none`. -/
structure ApiResp where
  code : Option Int
  msg : Option (List Char)
  data : Option (List ApiItem)
  title : Option (List Char)
  imgurl : Option (List Char)
deriving DecidableEq, Repr

/-- The dictionary `get_video_info` returns: an error record (`code = -1`)
or a success record (`code = 0`). -/
inductive VideoInfo where
  | err (msg : List Char)
  | ok (title video_url pic : List Char) (video_size : Int) (quality comment : List Char)
deriving DecidableEq, Repr

/-- `get_video_info` (lines 185-206) applied to a transport result: `none`
(a failed `_http_get_json`) gives the transport-error record; a response
whose `code` is not `0` or whose `data` is absent or empty gives an error
record with the response's `msg` or the generic default; otherwise the
fields of the first data item are collected. -/
def getVideoInfoOf (resp : Option ApiResp) : VideoInfo :=
  match resp with
  | none => .err (toL "API 请求失败")
  | some d =>
    match d.data with
    | some (item :: _) =>
      if d.code = some 0 then
        .ok (d.title.getD (toL "未知标题")) (item.video_url.getD [])
          (d.imgurl.getD []) (item.video_size.getD 0)
          (item.accept_format.getD (toL "未知清晰度")) (item.comment.getD [])
      else .err (d.msg.getD (toL "解析失败"))
    | _ => .err (d.msg.getD (toL "解析失败"))

/-- The proxy-API URL of line 190 (the handler always passes `accept_qn = 80`). -/
def apiUrl (bvid : List Char) : List Char :=
  toL "http://114.134.188.188:3003/api?bvid=" ++ bvid ++ toL "&accept=80"

/-- `get_video_info` with the HTTP layer as a parameter keyed by the request URL. -/
def getVideoInfo (http : List Char → Option ApiResp) (bvid : List Char) : VideoInfo :=
  getVideoInfoOf (http (apiUrl bvid))

/-- A message the handler yields: a native video component sent through
`chain_result`, or a plain-text result. -/
inductive Output where
  | videoChain (url : List Char)
  | plain (s : List Char)
deriving DecidableEq, Repr

/-- The lookup-and-reply tail of `bilibili_parse` (lines 353-401) on the
primary sending path (`chain_result` available, `Video` importable).
Returns the yielded messages and the identifiers looked up. -/
def lookupStep (http : List Char → Option ApiResp) (bvid : List Char) :
    List Output × List (List Char) :=
  match getVideoInfo http bvid with
  | .err m => ([.plain (toL "解析B站视频失败：" ++ m)], [bvid])
  | .ok title vurl _pic _sz _q _c =>
    ([.videoChain vurl, .plain (toL "🎬 标题: " ++ title ++ toL "\n")], [bvid])

/-- `bilibili_parse` (lines 314-405): early-exit on pure-video messages,
extract a URL, expand it when it mentions a short-link domain, canonicalize
to an identifier (strict `/video/` path first, then the bare-identifier
pattern), and look the metadata up.  Result: yielded messages and the list
of identifiers passed to `get_video_info`. -/
def bilibiliParse (expand : List Char → List Char)
    (http : List Char → Option ApiResp) (ev : Event) :
    List Output × List (List Char) :=
  if isPureVideoEvent ev then ([], [])
  else
    match extractBiliUrl ev with
    | none => ([], [])
    | some matchedUrl =>
      let text :=
        if listContains matchedUrl (toL "b23.tv") ||
           listContains matchedUrl (toL "bili2233.cn") then expand matchedUrl
        else matchedUrl
      match searchWith matchVideoPathAt text with
      | some bvid => lookupStep http bvid
      | none =>
        match searchWith matchIdAt text with
        | some bvid => lookupStep http bvid
        | none => ([], [])

/-- Canonical identifier shape of `BV_OR_AV_ID_PATTERN` restricted to its
`BV` alternative: `BV` plus exactly ten alphanumerics. -/
def isBVId (id : List Char) : Bool :=
  match id with
  | c1 :: c2 :: cs => c1 == 'B' && c2 == 'V' && cs.length == 10 && cs.all Char.isAlphanum
  | _ => false

/-- Identifier shape `av` plus at least `minD` digits. -/
def isAvId (minD : Nat) (id : List Char) : Bool :=
  match id with
  | c1 :: c2 :: ds =>
    c1 == 'a' && c2 == 'v' && !ds.isEmpty && decide (minD ≤ ds.length) &&
      ds.all Char.isDigit
  | _ => false

/-- The glossary's canonical identifier: `BV` + 10 alphanumerics, or `av` +
digits. -/
def isCanonicalId (id : List Char) : Bool := isBVId id || isAvId 1 id

/-! Supporting lemmas. -/

theorem stripLit_append (l r : List Char) : stripLit l (l ++ r) = some r := by
  induction l with
  | nil => rfl
  | cons c cs ih => simp [stripLit, ih]

theorem searchWith_head (m : List Char → Option (List Char)) (s r : List Char)
    (h : m s = some r) : searchWith m s = some r := by
  cases s with
  | nil => simpa [searchWith] using h
  | cons c t =>
    unfold searchWith
    rw [h]

theorem searchWith_implies (m : List Char → Option (List Char)) (P : List Char → Prop)
    (hm : ∀ t r, m t = some r → P r) :
    ∀ s r, searchWith m s = some r → P r := by
  intro s
  induction s with
  | nil => intro r h; exact hm [] r h
  | cons c t ih =>
    intro r h
    rw [searchWith] at h
    cases hmct : m (c :: t) with
    | some v =>
      rw [hmct] at h
      have h' : some v = some r := h
      exact hm (c :: t) r (hmct.trans h')
    | none =>
      rw [hmct] at h
      exact ih r h

theorem takeN_exact (p : Char → Bool) (cs tail : List Char) (h : ∀ c ∈ cs, p c = true) :
    takeN cs.length p (cs ++ tail) = some (cs, tail) := by
  induction cs with
  | nil => rfl
  | cons c cs ih =>
    have hcs := ih (fun c hc => h c (by simp [hc]))
    simp [takeN, h c (by simp), hcs]

theorem takeN_sound (p : Char → Bool) :
    ∀ (n : Nat) (s : List Char) (a : List Char × List Char), takeN n p s = some a →
      a.1.length = n ∧ (∀ c ∈ a.1, p c = true) ∧ s = a.1 ++ a.2 := by
  intro n
  induction n with
  | zero =>
    intro s a h
    simp only [takeN, Option.some.injEq] at h
    simp [← h]
  | succ n ih =>
    intro s a h
    cases s with
    | nil => simp [takeN] at h
    | cons c t =>
      simp only [takeN] at h
      by_cases hp : p c = true
      · simp only [hp, if_true] at h
        cases ht : takeN n p t with
        | none => rw [ht] at h; simp at h
        | some b =>
          rw [ht] at h
          simp only [Option.map_some', Option.some.injEq] at h
          obtain ⟨hl, hall, hs⟩ := ih t b ht
          subst h
          refine ⟨by simp [hl], ?_, by simp [hs]⟩
          intro x hx
          rcases List.mem_cons.mp hx with hx | hx
          · subst hx; exact hp
          · exact hall x hx
      · rw [Bool.not_eq_true] at hp
        simp only [hp] at h
        simp at h

theorem takeWhile_exact (p : Char → Bool) (ds s : List Char)
    (hall : ∀ c ∈ ds, p c = true) (hs : ∀ c, s.head? = some c → p c = false) :
    (ds ++ s).takeWhile p = ds ∧ (ds ++ s).dropWhile p = s := by
  induction ds with
  | nil =>
    cases s with
    | nil => simp
    | cons c t =>
      have := hs c (by simp)
      simp [List.takeWhile_cons, List.dropWhile_cons, this]
  | cons d ds ih =>
    have hd := hall d (by simp)
    obtain ⟨h1, h2⟩ := ih (fun c hc => hall c (by simp [hc]))
    simp [List.takeWhile_cons, List.dropWhile_cons, hd, h1, h2]

theorem all_takeWhile (p : Char → Bool) (l : List Char) :
    ∀ c ∈ l.takeWhile p, p c = true := by
  induction l with
  | nil => simp
  | cons d t ih =>
    intro c hc
    rw [List.takeWhile_cons] at hc
    by_cases hd : p d = true
    · simp only [hd, if_true] at hc
      rcases List.mem_cons.mp hc with h | h
      · subst h; exact hd
      · exact ih c h
    · rw [Bool.not_eq_true] at hd
      simp only [hd] at hc
      simp at hc

theorem vidGroup_exact (minD : Nat) (id s : List Char)
    (hid : isBVId id = true ∨ isAvId minD id = true)
    (hs : ∀ c, s.head? = some c → c.isDigit = false) :
    matchVidGroup minD (id ++ s) = some (id, s) := by
  rcases hid with h | h
  · cases id with
    | nil => simp [isBVId] at h
    | cons c1 id' =>
      cases id' with
      | nil => simp [isBVId] at h
      | cons c2 cs =>
        simp only [isBVId, Bool.and_eq_true, beq_iff_eq, List.all_eq_true] at h
        obtain ⟨⟨⟨hc1, hc2⟩, hlen⟩, hall⟩ := h
        subst hc1; subst hc2
        have h1 : matchIdBV ('B' :: 'V' :: (cs ++ s)) = some ('B' :: 'V' :: cs, s) := by
          simp only [matchIdBV, and_self, if_true]
          rw [hlen.symm, takeN_exact Char.isAlphanum cs s hall]
        simp only [List.cons_append]
        unfold matchVidGroup
        rw [h1]
  · cases id with
    | nil => simp [isAvId] at h
    | cons c1 id' =>
      cases id' with
      | nil => simp [isAvId] at h
      | cons c2 ds =>
        simp only [isAvId, Bool.and_eq_true, beq_iff_eq, List.all_eq_true,
          Bool.not_eq_true', decide_eq_true_eq] at h
        obtain ⟨⟨⟨⟨hc1, hc2⟩, hne⟩, hmin⟩, hall⟩ := h
        subst hc1; subst hc2
        obtain ⟨htw, hdw⟩ := takeWhile_exact Char.isDigit ds s hall hs
        have hbv : matchIdBV ('a' :: 'v' :: (ds ++ s)) = none := by
          simp only [matchIdBV]
          rw [if_neg (by decide)]
        simp only [List.cons_append]
        unfold matchVidGroup
        rw [hbv]
        simp only [matchIdAvMin, and_self, if_true, htw, hdw, hne, Bool.not_false,
          decide_eq_true hmin, Bool.and_self]

theorem matchIdBV_sound (r : List Char) (p : List Char × List Char)
    (h : matchIdBV r = some p) : isBVId p.1 = true := by
  cases r with
  | nil => simp [matchIdBV] at h
  | cons c1 r' =>
    cases r' with
    | nil => simp [matchIdBV] at h
    | cons c2 rest =>
      simp only [matchIdBV] at h
      by_cases hc : c1 = 'B' ∧ c2 = 'V'
      · rw [if_pos hc] at h
        cases ht : takeN 10 Char.isAlphanum rest with
        | none => rw [ht] at h; simp at h
        | some a =>
          rw [ht] at h
          obtain rfl := Option.some.inj h
          obtain ⟨hl, hall, -⟩ := takeN_sound Char.isAlphanum 10 rest a ht
          obtain ⟨hb, hv⟩ := hc
          subst hb; subst hv
          simpa [isBVId, hl, List.all_eq_true] using hall
      · rw [if_neg hc] at h; simp at h

theorem matchIdAvMin_sound (minD : Nat) (r : List Char) (p : List Char × List Char)
    (h : matchIdAvMin minD r = some p) : isAvId minD p.1 = true := by
  cases r with
  | nil => simp [matchIdAvMin] at h
  | cons c1 r' =>
    cases r' with
    | nil => simp [matchIdAvMin] at h
    | cons c2 rest =>
      simp only [matchIdAvMin] at h
      by_cases hc : c1 = 'a' ∧ c2 = 'v'
      · rw [if_pos hc] at h
        by_cases hcond : (!(rest.takeWhile Char.isDigit).isEmpty &&
            decide (minD ≤ (rest.takeWhile Char.isDigit).length)) = true
        · rw [if_pos hcond] at h
          obtain rfl := Option.some.inj h
          obtain ⟨ha, hv⟩ := hc
          subst ha; subst hv
          simp only [Bool.and_eq_true, Bool.not_eq_true', decide_eq_true_eq] at hcond
          have hall := all_takeWhile Char.isDigit rest
          simp [isAvId, List.all_eq_true, hcond.1, hcond.2]
        · rw [Bool.not_eq_true] at hcond
          rw [hcond] at h
          simp at h
      · rw [if_neg hc] at h; simp at h

theorem vidGroup_sound (minD : Nat) (r : List Char) (p : List Char × List Char)
    (h : matchVidGroup minD r = some p) :
    isBVId p.1 = true ∨ isAvId minD p.1 = true := by
  unfold matchVidGroup at h
  cases hbv : matchIdBV r with
  | some q =>
    rw [hbv] at h
    have h' : some q = some p := h
    obtain rfl := Option.some.inj h'
    exact Or.inl (matchIdBV_sound r q hbv)
  | none =>
    rw [hbv] at h
    exact Or.inr (matchIdAvMin_sound minD r p h)

theorem isAvId_one (minD : Nat) (id : List Char) (h : isAvId minD id = true) :
    isAvId 1 id = true := by
  cases id with
  | nil => simp [isAvId] at h
  | cons c1 r' =>
    cases r' with
    | nil => simp [isAvId] at h
    | cons c2 ds =>
      simp only [isAvId, Bool.and_eq_true, beq_iff_eq, Bool.not_eq_true',
        decide_eq_true_eq, List.all_eq_true] at h ⊢
      obtain ⟨⟨⟨⟨h1, h2⟩, h3⟩, _⟩, h5⟩ := h
      refine ⟨⟨⟨⟨h1, h2⟩, h3⟩, ?_⟩, h5⟩
      cases ds with
      | nil => simp at h3
      | cons d t => simp

theorem matchVideoPathAt_sound (t id : List Char)
    (h : matchVideoPathAt t = some id) : isCanonicalId id = true := by
  unfold matchVideoPathAt at h
  cases hsl : stripLit (toL "/video/") t with
  | none => rw [hsl] at h; simp at h
  | some r =>
    rw [hsl] at h
    replace h : Option.map (fun p => p.1) (matchVidGroup 5 r) = some id := h
    cases hvg : matchVidGroup 5 r with
    | none => rw [hvg] at h; simp at h
    | some p =>
      rw [hvg] at h
      simp only [Option.map_some', Option.some.injEq] at h
      subst h
      rcases vidGroup_sound 5 r p hvg with hb | ha
      · simp [isCanonicalId, hb]
      · simp [isCanonicalId, isAvId_one 5 p.1 ha]

theorem matchIdAt_sound (t id : List Char)
    (h : matchIdAt t = some id) : isCanonicalId id = true := by
  unfold matchIdAt at h
  cases hvg : matchVidGroup 5 t with
  | none => rw [hvg] at h; simp at h
  | some p =>
    rw [hvg] at h
    simp only [Option.map_some', Option.some.injEq] at h
    subst h
    rcases vidGroup_sound 5 t p hvg with hb | ha
    · simp [isCanonicalId, hb]
    · simp [isCanonicalId, isAvId_one 5 p.1 ha]

theorem lookupStep_snd (http : List Char → Option ApiResp) (bvid : List Char) :
    (lookupStep http bvid).2 = [bvid] := by
  unfold lookupStep
  split <;> rfl

theorem replace1_cons_eq (x : Char) (new t : List Char) :
    replace1 x new (x :: t) = new ++ replace1 x new t := by
  simp [replace1]

theorem replace1_cons_ne (x : Char) (new : List Char) (c : Char) (t : List Char)
    (h : c ≠ x) : replace1 x new (c :: t) = c :: replace1 x new t := by
  simp [replace1, h]

theorem replace2_cons_eq (x y : Char) (new t : List Char) :
    replace2 x y new (x :: y :: t) = new ++ replace2 x y new t := by
  simp [replace2]

theorem replace2_cons_ne (x y : Char) (new : List Char) (c : Char) (t : List Char)
    (h : c ≠ x) : replace2 x y new (c :: t) = c :: replace2 x y new t := by
  cases t with
  | nil => simp [replace2]
  | cons d rest =>
    simp only [replace2]
    rw [if_neg (fun hh => h hh.1)]

theorem replace2_pair_ne (x y : Char) (new : List Char) (c d : Char) (t : List Char)
    (h : ¬(c = x ∧ d = y)) :
    replace2 x y new (c :: d :: t) = c :: replace2 x y new (d :: t) := by
  simp only [replace2]
  rw [if_neg h]

theorem replace1_id (x : Char) (new : List Char) :
    ∀ s : List Char, (∀ c ∈ s, c ≠ x) → replace1 x new s = s := by
  intro s
  induction s with
  | nil => intro _; rfl
  | cons c t ih =>
    intro h
    rw [replace1_cons_ne x new c t (h c (by simp)), ih (fun c hc => h c (by simp [hc]))]

theorem matchTrail_exact (trail rest : List Char)
    (htr : trail = ['/'] ∨ trail = ['?'] ∨ (trail = [] ∧ (rest = [] ∨ rest = ['\n']))) :
    matchTrail (trail ++ rest) = some trail := by
  rcases htr with h | h | ⟨h1, h2⟩
  · subst h; simp [matchTrail]
  · subst h; simp [matchTrail]
  · subst h1
    rcases h2 with h2 | h2 <;> subst h2 <;> simp [matchTrail]

theorem trail_head_not_digit (trail rest : List Char)
    (htr : trail = ['/'] ∨ trail = ['?'] ∨ (trail = [] ∧ (rest = [] ∨ rest = ['\n']))) :
    ∀ c, (trail ++ rest).head? = some c → c.isDigit = false := by
  rcases htr with h | h | ⟨h1, h2⟩
  · subst h; intro c hc
    simp only [List.cons_append, List.head?_cons, Option.some.injEq] at hc
    subst hc; decide
  · subst h; intro c hc
    simp only [List.cons_append, List.head?_cons, Option.some.injEq] at hc
    subst hc; decide
  · subst h1
    rcases h2 with h2 | h2
    · subst h2; intro c hc; simp at hc
    · subst h2; intro c hc
      simp only [List.nil_append, List.head?_cons, Option.some.injEq] at hc
      subst hc; decide

theorem matchBiliAt_canonical (scheme ww id trail rest : List Char)
    (hs : scheme = toL "https://" ∨ scheme = toL "http://" ∨ scheme = [])
    (hw : ww = toL "www." ∨ ww = [])
    (hid : isBVId id = true ∨ isAvId 1 id = true)
    (htr : trail = ['/'] ∨ trail = ['?'] ∨ (trail = [] ∧ (rest = [] ∨ rest = ['\n']))) :
    matchBiliAt (scheme ++ (ww ++ (toL "bilibili.com/video/" ++ (id ++ (trail ++ rest))))) =
      some (scheme ++ (ww ++ (toL "bilibili.com/video/" ++ (id ++ trail)))) := by
  have hvg := vidGroup_exact 1 id (trail ++ rest) hid (trail_head_not_digit trail rest htr)
  have htrm := matchTrail_exact trail rest htr
  rcases hs with h | h | h <;> rcases hw with h' | h' <;> subst h <;> subst h' <;>
    simp [matchBiliAt, matchBiliAfterScheme, matchBiliAfterHost, matchBiliVideoAlt,
      stripLit, toL, hvg, htrm]

theorem unescapeCardUrl_scheme (t : List Char) :
    unescapeCardUrl (toL "https:\\\\/\\\\/" ++ t) =
      toL "https://" ++ unescapeCardUrl t := by
  unfold unescapeCardUrl
  have h1 : replace2 '\\' '\\' ['\\'] (toL "https:\\\\/\\\\/" ++ t) =
      toL "https:\\/\\/" ++ replace2 '\\' '\\' ['\\'] t := by
    simp [toL, replace2_cons_eq, replace2_cons_ne, replace2_pair_ne]
  rw [h1]
  simp [toL, replace2_cons_eq, replace2_cons_ne, replace2_pair_ne]

theorem roundtrip_step1 (s : List Char) (h : ∀ c ∈ s, c ≠ '\\') :
    replace2 '\\' '\\' ['\\'] (replace1 '/' ['\\', '/'] s) =
      replace1 '/' ['\\', '/'] s := by
  induction s with
  | nil => rfl
  | cons c t ih =>
    have hc := h c (by simp)
    have hih := ih (fun c hc => h c (by simp [hc]))
    by_cases hcs : c = '/'
    · subst hcs
      rw [replace1_cons_eq]
      simp only [List.cons_append, List.nil_append]
      rw [replace2_pair_ne _ _ _ _ _ _ (by decide), replace2_cons_ne _ _ _ _ _ (by decide),
        hih]
    · rw [replace1_cons_ne _ _ _ _ hcs, replace2_cons_ne _ _ _ _ _ hc, hih]

theorem roundtrip_step2 (s : List Char) (h : ∀ c ∈ s, c ≠ '\\') :
    replace2 '\\' '/' ['/'] (replace1 '/' ['\\', '/'] s) = s := by
  induction s with
  | nil => rfl
  | cons c t ih =>
    have hc := h c (by simp)
    have hih := ih (fun c hc => h c (by simp [hc]))
    by_cases hcs : c = '/'
    · subst hcs
      rw [replace1_cons_eq]
      simp only [List.cons_append, List.nil_append]
      rw [replace2_cons_eq, hih]
      rfl
    · rw [replace1_cons_ne _ _ _ _ hcs, replace2_cons_ne _ _ _ _ _ hc, hih]

/-- The URL character set of the spec's round-trip property: alphanumerics
and `:`, `/`, `.`, `-`, `_`. -/
def allowedUrlChar (c : Char) : Bool :=
  c.isAlphanum || c == ':' || c == '/' || c == '.' || c == '-' || c == '_'

theorem allowedUrlChar_ne_backslash (c : Char) (h : allowedUrlChar c = true) :
    c ≠ '\\' := by
  intro he
  subst he
  exact absurd h (by decide)

theorem http_isPrefixOf_https (u : List Char) :
    (toL "http").isPrefixOf (toL "https://" ++ u) = true := by
  simp [toL, List.isPrefixOf]

theorem http_isPrefixOf_syn (u : List Char) :
    (toL "http").isPrefixOf (toL "https://www.bilibili.com/video/" ++ u) = true := by
  simp [toL, List.isPrefixOf]

theorem slashes_isPrefixOf_false (u : List Char) :
    (toL "//").isPrefixOf (toL "https://" ++ u) = false := by
  simp [toL, List.isPrefixOf]

/-! The claims. -/

/-- C1, counterexample.  The input text contains the well-formed canonical
video-page URL `bilibili.com/video/av12345`, but the extractor does not
return `https://bilibili.com/video/av12345`: the identifier is followed by a
space, so `BILI_LINK_PATTERN` (whose identifier must be followed by `/`, `?`
or the end of the text) does not match, and the bare-identifier fallback
synthesizes the `www.` variant instead. -/
theorem c1_counterexample :
    extractBiliUrl ⟨some (toL "bilibili.com/video/av12345 ok"), none, none⟩ =
        some (toL "https://www.bilibili.com/video/av12345") ∧
      some (toL "https://www.bilibili.com/video/av12345") ≠
        some (toL "https://bilibili.com/video/av12345") :=
  ⟨by decide, by decide⟩

/-- C1, amended.  For every message text consisting of a well-formed
canonical video-page URL — optional `https://` or `http://` scheme, optional
`www.`, `bilibili.com/video/` and a `BV`+10-alphanumeric or `av`+digits
identifier — whose identifier is immediately followed by `/`, `?`, or the
end of the text, the extractor returns exactly that URL (including the
trailing `/` or `?` delimiter) normalized with an `https://` scheme:
returned as matched when a scheme is present, with `https://` prepended
otherwise. -/
theorem c1_amended (scheme ww id trail rest : List Char)
    (hs : scheme = toL "https://" ∨ scheme = toL "http://" ∨ scheme = [])
    (hw : ww = toL "www." ∨ ww = [])
    (hid : isBVId id = true ∨ isAvId 1 id = true)
    (htr : trail = ['/'] ∨ trail = ['?'] ∨ (trail = [] ∧ (rest = [] ∨ rest = ['\n']))) :
    extractBiliUrl
        ⟨some (scheme ++ (ww ++ (toL "bilibili.com/video/" ++ (id ++ (trail ++ rest))))),
         none, none⟩ =
      some (if (toL "http").isPrefixOf
              (scheme ++ (ww ++ (toL "bilibili.com/video/" ++ (id ++ trail)))) then
              scheme ++ (ww ++ (toL "bilibili.com/video/" ++ (id ++ trail)))
            else toL "https://" ++
              (scheme ++ (ww ++ (toL "bilibili.com/video/" ++ (id ++ trail))))) := by
  have hm := matchBiliAt_canonical scheme ww id trail rest hs hw hid htr
  have hne : scheme ++ (ww ++ (toL "bilibili.com/video/" ++ (id ++ (trail ++ rest)))) ≠ [] := by
    rcases hs with h | h | h <;> subst h <;> simp [toL]
  have hc : candidatesText
      ⟨some (scheme ++ (ww ++ (toL "bilibili.com/video/" ++ (id ++ (trail ++ rest))))),
       none, none⟩ =
      [scheme ++ (ww ++ (toL "bilibili.com/video/" ++ (id ++ (trail ++ rest))))] := by
    simp [candidatesText, hne]
  have hsw := searchWith_head matchBiliAt _ _ hm
  simp [extractBiliUrl, hc, List.findSome?, hsw]

/-- C1, witness. -/
theorem c1_witness :
    extractBiliUrl ⟨some (toL "www.bilibili.com/video/BV17x411w7KC"), none, none⟩ =
      some (toL "https://www.bilibili.com/video/BV17x411w7KC") := by
  have h := c1_amended [] (toL "www.") (toL "BV17x411w7KC") [] []
    (by simp) (by simp) (by left; decide) (by right; right; exact ⟨rfl, Or.inl rfl⟩)
  simpa using h

/-- C2, counterexample.  A message with the short link `https://b23.tv/xyz`
where expansion fails (the network request raises, so `_expand_url` returns
the URL unchanged): no identifier can be extracted, yet the handler emits NO
user-visible message at all — it yields nothing and performs no metadata
lookup, contradicting the claimed "unsupported link type" message. -/
theorem c2_counterexample :
    bilibiliParse (expandUrl (fun _ => none)) (fun _ => none)
      ⟨some (toL "https://b23.tv/xyz"), none, none⟩ = ([], []) := by
  decide

/-- C2, amended.  Whenever the canonicalization step finds no identifier in
the (possibly expanded) URL — no `/video/<ID>` path segment and no bare
BV/av-shaped token anywhere in the string — the handler performs no metadata
lookup and aborts silently, yielding no message (a warning is only logged). -/
theorem c2_amended (ev : Event) (expand : List Char → List Char)
    (http : List Char → Option ApiResp) (u : List Char)
    (hext : extractBiliUrl ev = some u)
    (h1 : searchWith matchVideoPathAt
        (if listContains u (toL "b23.tv") || listContains u (toL "bili2233.cn") then
           expand u else u) = none)
    (h2 : searchWith matchIdAt
        (if listContains u (toL "b23.tv") || listContains u (toL "bili2233.cn") then
           expand u else u) = none) :
    bilibiliParse expand http ev = ([], []) := by
  unfold bilibiliParse
  by_cases hp : isPureVideoEvent ev = true
  · simp [hp]
  · rw [Bool.not_eq_true] at hp
    simp only [Bool.or_eq_true] at h1 h2
    simp [hp, hext, h1, h2]

/-- C2, witness. -/
theorem c2_witness :
    bilibiliParse (expandUrl (fun _ => none)) (fun _ => none)
      ⟨some (toL "x https://b23.tv/abc x"), none, none⟩ = ([], []) :=
  c2_amended _ _ _ (toL "https://b23.tv/abc") (by decide) (by decide) (by decide)

/-- C3, counterexample.  The message `see BV17x411w7KC` contains a bare
`BV`+10 token and no site-name hint other than the token itself; the claim
predicts no reference, but the token preceded by a space supplies the
two-character hint (space + `bv`) after lowercasing, so the extractor DOES
synthesize a reference. -/
theorem c3_counterexample :
    extractBiliUrl ⟨some (toL "see BV17x411w7KC"), none, none⟩ =
      some (toL "https://www.bilibili.com/video/BV17x411w7KC") := by
  decide

/-- C3, amended.  When neither URL tier matches: if the lowercased combined
candidate text contains a site-name hint — where the hint set is `bilibili`,
`b23.tv`, `bili2233.cn`, `哔哩`, `b站`, or a space followed by `bv` (so a
bare token preceded by whitespace counts as its own hint) — the extractor
returns `https://www.bilibili.com/video/<token>` for the first bare
identifier found; with no such hint it returns no reference. -/
theorem c3_amended (ev : Event)
    (h1 : (candidatesText ev).findSome? (fun t => searchWith matchBiliAt t) = none)
    (h2 : (candidatesText ev).findSome? (fun t => searchWith matchCardAt t) = none) :
    (fallbackHints (toLowerL (joinSpace (candidatesText ev))) = true →
      extractBiliUrl ev =
        ((candidatesText ev).findSome? (fun t => searchWith matchIdAt t)).map
          (fun tok => toL "https://www.bilibili.com/video/" ++ tok)) ∧
    (fallbackHints (toLowerL (joinSpace (candidatesText ev))) = false →
      extractBiliUrl ev = none) := by
  constructor
  · intro hf
    cases h3 : (candidatesText ev).findSome? (fun t => searchWith matchIdAt t) with
    | some tok => simp [extractBiliUrl, h1, h2, hf, h3]
    | none => simp [extractBiliUrl, h1, h2, hf, h3]
  · intro hf
    simp [extractBiliUrl, h1, h2, hf]

/-- C3, witness. -/
theorem c3_witness :
    extractBiliUrl ⟨some (toL "bilibili BV17x411w7KC"), none, none⟩ =
      some (toL "https://www.bilibili.com/video/BV17x411w7KC") := by
  have h := (c3_amended ⟨some (toL "bilibili BV17x411w7KC"), none, none⟩
    (by decide) (by decide)).1 (by decide)
  rw [h]
  decide

/-- C4, counterexample.  A payload carrying the short link with each `/`
written as the two-character JSON escape (one backslash then a slash):
`CARD_ESCAPED_LINK_PATTERN` requires a doubled backslash before each escaped
slash, so the second tier does not match and the extractor returns no
reference — contradicting the claimed unescaped URL. -/
theorem c4_counterexample :
    extractBiliUrl
      ⟨none, none, some ⟨none, toL "https:\\/\\/b23.tv\\/abc123", none⟩⟩ = none := by
  decide

/-- C4, amended.  When tier 1 finds no direct match and the second tier
matches an escaped URL — in which each `/` of the URL appears as the
three-character sequence backslash-backslash-slash, i.e. the `str()` of a
JSON-escaped payload whose escaping backslash is itself doubled — the
extractor returns the correctly unescaped URL; the match always begins with
the escaped `https:` scheme, so the unescaped result starts with `https://`
and no scheme completion is needed. -/
theorem c4_amended (ev : Event) (body : List Char)
    (h1 : (candidatesText ev).findSome? (fun t => searchWith matchBiliAt t) = none)
    (h2 : (candidatesText ev).findSome? (fun t => searchWith matchCardAt t) =
      some (toL "https:\\\\/\\\\/" ++ body)) :
    extractBiliUrl ev = some (toL "https://" ++ unescapeCardUrl body) := by
  have hu := unescapeCardUrl_scheme body
  simp [extractBiliUrl, h1, h2, hu, slashes_isPrefixOf_false, http_isPrefixOf_https]

/-- C4, witness. -/
theorem c4_witness :
    extractBiliUrl
        ⟨none, none, some ⟨none, toL "pay https:\\\\/\\\\/b23.tv\\\\/abc123 end", none⟩⟩ =
      some (toL "https://" ++ unescapeCardUrl (toL "b23.tv\\\\/abc123")) :=
  c4_amended _ (toL "b23.tv\\\\/abc123") (by decide) (by decide)

/-- C5, counterexample.  `_expand_url` on a schemeless URL whose request
fails returns the `https://`-prepended URL, not the original string. -/
theorem c5_counterexample :
    expandUrl (fun _ => none) (toL "b23.tv/x") = toL "https://b23.tv/x" ∧
      toL "https://b23.tv/x" ≠ toL "b23.tv/x" :=
  ⟨by decide, by decide⟩

/-- C5, amended.  `_expand_url` never raises (it is total by construction
here, mirroring the catch-all `except`), and when the HTTP request fails in
any way it returns the URL as normalized inside the `try` block: unchanged
when it already starts with `http`, and with `https://` prepended
otherwise. -/
theorem c5_amended (request : List Char → Option (List Char)) (url : List Char)
    (h : request (if (toL "http").isPrefixOf url then url
                  else toL "https://" ++ url) = none) :
    expandUrl request url =
      (if (toL "http").isPrefixOf url then url else toL "https://" ++ url) := by
  simp only [expandUrl]
  rw [h]

/-- C5, witness. -/
theorem c5_witness :
    expandUrl (fun _ => none) (toL "https://b23.tv/x") = toL "https://b23.tv/x" := by
  have h := c5_amended (fun _ => none) (toL "https://b23.tv/x") rfl
  rw [h]
  decide

/-- The metadata response of the C6 scenario: `code = -1`, `msg` present,
no `data`. -/
def respC6 : ApiResp := ⟨some (-1), some (toL "video removed"), none, none, none⟩

/-- C6.  For every metadata-API response whose `code` is non-zero or whose
`data` is missing or empty, the handler yields exactly one message,
`解析B站视频失败：` followed by the response's `msg` (or the generic default
`解析失败` when `msg` is absent), performs exactly one lookup (no retry),
and emits nothing else. -/
theorem c6_api_error_single_message (ev : Event) (expand : List Char → List Char)
    (http : List Char → Option ApiResp) (u bvid : List Char) (resp : ApiResp)
    (hpure : isPureVideoEvent ev = false)
    (hext : extractBiliUrl ev = some u)
    (hbv : searchWith matchVideoPathAt
        (if listContains u (toL "b23.tv") || listContains u (toL "bili2233.cn") then
           expand u else u) = some bvid)
    (hresp : http (apiUrl bvid) = some resp)
    (herr : resp.code ≠ some 0 ∨ resp.data = none ∨ resp.data = some []) :
    bilibiliParse expand http ev =
      ([Output.plain (toL "解析B站视频失败：" ++ resp.msg.getD (toL "解析失败"))],
       [bvid]) := by
  have hvi : getVideoInfoOf (some resp) =
      VideoInfo.err (resp.msg.getD (toL "解析失败")) := by
    unfold getVideoInfoOf
    rcases herr with hc | hd | hd
    · cases hdat : resp.data with
      | none => simp [hdat]
      | some l =>
        cases l with
        | nil => simp [hdat]
        | cons it tl => simp [hdat, hc]
    · simp [hd]
    · simp [hd]
  simp only [Bool.or_eq_true] at hbv
  simp [bilibiliParse, hpure, hext, hbv, lookupStep, getVideoInfo, hresp, hvi]

/-- C6, witness. -/
theorem c6_witness :
    bilibiliParse (fun u => u) (fun _ => some respC6)
        ⟨some (toL "https://www.bilibili.com/video/BV17x411w7KC"), none, none⟩ =
      ([Output.plain (toL "解析B站视频失败：video removed")], [toL "BV17x411w7KC"]) := by
  have h := c6_api_error_single_message
    ⟨some (toL "https://www.bilibili.com/video/BV17x411w7KC"), none, none⟩
    (fun u => u) (fun _ => some respC6)
    (toL "https://www.bilibili.com/video/BV17x411w7KC") (toL "BV17x411w7KC") respC6
    (by decide) (by decide) (by decide) rfl (by decide)
  rw [h]
  decide

theorem parse_tail_ids (http : List Char → Option ApiResp) (text b : List Char)
    (hb : b ∈ (match searchWith matchVideoPathAt text with
               | some bvid => lookupStep http bvid
               | none =>
                 match searchWith matchIdAt text with
                 | some bvid => lookupStep http bvid
                 | none => (([], []) : List Output × List (List Char))).2) :
    isCanonicalId b = true := by
  cases hv : searchWith matchVideoPathAt text with
  | some bvid =>
    simp only [hv] at hb
    rw [lookupStep_snd, List.mem_singleton] at hb
    rw [hb]
    exact searchWith_implies matchVideoPathAt (fun r => isCanonicalId r = true)
      (fun t r h => matchVideoPathAt_sound t r h) _ bvid hv
  | none =>
    simp only [hv] at hb
    cases hi : searchWith matchIdAt text with
    | some bvid =>
      simp only [hi] at hb
      rw [lookupStep_snd, List.mem_singleton] at hb
      rw [hb]
      exact searchWith_implies matchIdAt (fun r => isCanonicalId r = true)
        (fun t r h => matchIdAt_sound t r h) _ bvid hi
    | none =>
      simp only [hi] at hb
      simp at hb

/-- C7.  Invariant: every identifier the handler passes to the metadata
lookup matches a canonical shape — `BV` plus exactly ten alphanumerics, or
`av` plus digits; a candidate matching neither shape is never looked up (the
handler then returns silently, yielding nothing). -/
theorem c7_canonical_lookup (expand : List Char → List Char)
    (http : List Char → Option ApiResp) (ev : Event) :
    ∀ b ∈ (bilibiliParse expand http ev).2, isCanonicalId b = true := by
  intro b hb
  unfold bilibiliParse at hb
  by_cases hp : isPureVideoEvent ev = true
  · rw [if_pos hp] at hb
    simp at hb
  · rw [if_neg hp] at hb
    cases hext : extractBiliUrl ev with
    | none =>
      simp only [hext] at hb
      simp at hb
    | some u =>
      simp only [hext] at hb
      exact parse_tail_ids http
        (if listContains u (toL "b23.tv") || listContains u (toL "bili2233.cn") then
           expand u else u) b hb

/-- C7, witness. -/
theorem c7_witness : isCanonicalId (toL "BV17x411w7KC") = true :=
  c7_canonical_lookup (fun u => u) (fun _ => none)
    ⟨some (toL "https://www.bilibili.com/video/BV17x411w7KC"), none, none⟩
    (toL "BV17x411w7KC") (by decide)

/-- C8.  Round-trip: for every string over alphanumerics and `:` `/` `.` `-`
`_`, applying the JSON-style escape (each backslash doubled, then each slash
preceded by a backslash) followed by `_unescape_card_url` (which first
collapses doubled backslashes, then unescapes slashes — in that order)
returns the original string. -/
theorem c8_roundtrip (s : List Char) (h : ∀ c ∈ s, allowedUrlChar c = true) :
    unescapeCardUrl (escapeJsonUrl s) = s := by
  have hnb : ∀ c ∈ s, c ≠ '\\' := fun c hc => allowedUrlChar_ne_backslash c (h c hc)
  unfold escapeJsonUrl unescapeCardUrl
  rw [replace1_id '\\' ['\\', '\\'] s hnb]
  rw [roundtrip_step1 s hnb, roundtrip_step2 s hnb]

/-- C8, witness. -/
theorem c8_witness :
    unescapeCardUrl (escapeJsonUrl (toL "https://www.bilibili.com/video/BV17x411w7KC")) =
      toL "https://www.bilibili.com/video/BV17x411w7KC" :=
  c8_roundtrip (toL "https://www.bilibili.com/video/BV17x411w7KC") (by decide)

/-- C9.  A message whose payload's type marker is `video`
(case-insensitively) and whose combined text carries no site-name hint is a
pure video attachment: the handler exits before running the extractor — it
yields no message and performs no metadata lookup. -/
theorem c9_pure_video_early_exit (ev : Event) (mo : MsgObj) (t : List Char)
    (expand : List Char → List Char) (http : List Char → Option ApiResp)
    (hmo : ev.message_obj = some mo) (hty : mo.type = some t)
    (hvid : toLowerL t = toL "video")
    (hhint : pureHints (toLowerL (joinSpace (pureParts ev))) = false) :
    bilibiliParse expand http ev = ([], []) := by
  have hp : isPureVideoEvent ev = true := by
    simp [isPureVideoEvent, hmo, hty, hvid, hhint]
  simp [bilibiliParse, hp]

/-- C9, witness. -/
theorem c9_witness :
    bilibiliParse (fun u => u) (fun _ => none)
      ⟨some (toL "watch this"), none,
       some ⟨none, toL "videomsg", some (toL "Video")⟩⟩ = ([], []) :=
  c9_pure_video_early_exit
    ⟨some (toL "watch this"), none, some ⟨none, toL "videomsg", some (toL "Video")⟩⟩
    ⟨none, toL "videomsg", some (toL "Video")⟩ (toL "Video")
    (fun u => u) (fun _ => none) rfl rfl (by decide) (by decide)

/-- C10.  Implicit invariant: the extractor returns either no reference or a
URL that begins with `http` — a direct match is returned as matched or with
`https://` prepended, an escaped match is scheme-completed after unescaping,
and the bare-identifier fallback always synthesizes an `https://` URL. -/
theorem normHttp_isPrefixOf (v : List Char) :
    (toL "http").isPrefixOf
      (if (toL "http").isPrefixOf v then v else toL "https://" ++ v) = true := by
  by_cases hc : (toL "http").isPrefixOf v = true
  · rw [if_pos hc]; exact hc
  · rw [Bool.not_eq_true] at hc
    rw [if_neg (by simp [hc])]
    exact http_isPrefixOf_https v

theorem c10_scheme_invariant (ev : Event) :
    Option.all (fun u => (toL "http").isPrefixOf u) (extractBiliUrl ev) = true := by
  cases h1 : (candidatesText ev).findSome? (fun t => searchWith matchBiliAt t) with
  | some url =>
    simp only [extractBiliUrl, h1]
    exact normHttp_isPrefixOf url
  | none =>
    cases h2 : (candidatesText ev).findSome? (fun t => searchWith matchCardAt t) with
    | some raw =>
      simp only [extractBiliUrl, h1, h2]
      exact normHttp_isPrefixOf _
    | none =>
      cases hf : fallbackHints (toLowerL (joinSpace (candidatesText ev))) with
      | true =>
        cases h3 : (candidatesText ev).findSome? (fun t => searchWith matchIdAt t) with
        | some tok =>
          simp only [extractBiliUrl, h1, h2, hf, eq_self_iff_true, if_true, h3]
          exact http_isPrefixOf_syn tok
        | none =>
          simp only [extractBiliUrl, h1, h2, hf, eq_self_iff_true, if_true, h3]
          rfl
      | false =>
        simp only [extractBiliUrl, h1, h2, hf, Bool.false_eq_true, if_false]
        rfl
